import Mathlib

/-!
Verification of the memory-pipeline extraction system against its design
specification.  The Go source is shallowly embedded: pure data types become
Lean structures, the stateful adapters (FileWalker catalogue, NoteStore
collection, MarkdownWriter multimap) become explicit state passing, and the
orchestrator (Service.Run) is a function over abstract port implementations,
mirroring the hexagonal layout of the code.  Remote HTTP calls are modelled
as oracle functions returning Except values; float32 embedding vectors are
carried opaquely as lists of integers (their bit patterns), since no code
path computes on them.
-/

namespace MemoryPipeline

/-- Status of a tracked file, from internal/domain/extraction/file.go. -/
inductive FileStatus where
  | pending
  | processing
  | processed
  | error
deriving DecidableEq, Repr

/-- Serialization of FileStatus as the lowercase strings used on disk. -/
def FileStatus.toGoString : FileStatus → String
  | .pending => "pending"
  | .processing => "processing"
  | .processed => "processed"
  | .error => "error"

/-- Kind of a memory note, from internal/domain/extraction/file.go. -/
inductive NoteKind where
  | learning
  | pattern
  | cookbook
  | decision
deriving DecidableEq, Repr

/-- The lowercase string value of each NoteKind constant in the Go source. -/
def NoteKind.toGoString : NoteKind → String
  | .learning => "learning"
  | .pattern => "pattern"
  | .cookbook => "cookbook"
  | .decision => "decision"

/-- File paths are strings, as extraction.FilePath in the Go source. -/
abbrev FilePath := String

/-- File hashes are hex strings, as extraction.FileHash in the Go source. -/
abbrev FileHash := String

/-- Note identifiers are strings, as extraction.NodeID in the Go source. -/
abbrev NodeID := String

/-- Float32 embedding vectors carried opaquely as their bit patterns; the
pipeline only passes them through, never computes on them. -/
abbrev EmbedVec := List Int

/-- The File domain record from internal/domain/extraction/file.go (the value
returned by NextPending; it omits reason and modification time). -/
structure File where
  hash : FileHash
  path : FilePath
  status : FileStatus
deriving DecidableEq, Repr

/-- The MemoryNote domain record from internal/domain/extraction/file.go. -/
structure MemoryNote where
  id : NodeID
  content : String
  kind : NoteKind
  path : FilePath
deriving DecidableEq, Repr

/-- The EmbeddedNote domain record from internal/domain/extraction/file.go. -/
structure EmbeddedNote where
  note : MemoryNote
  embedding : EmbedVec
deriving DecidableEq, Repr

/-- Errors surfaced by the pipeline.  Go errors are values compared by message
string; the named sentinel errors of the source get constructors and any other
error is carried as its message. -/
inductive Err where
  | noMoreFiles
  | fileNotFound
  | fuelExhausted
  | msg (s : String)
deriving DecidableEq, Repr

/-- The message text of each error, mirroring errors.New in the source. -/
def Err.message : Err → String
  | .noMoreFiles => "extraction: file_store has no more pending files"
  | .fileNotFound => "inbound: file_walker file not found"
  | .fuelExhausted => "model: loop fuel exhausted"
  | .msg s => s

/-- The sentinel check isNoMoreFilesError from service.go, which compares
error messages as strings, exactly as the Go source does. -/
def isNoMoreFilesError (e : Err) : Bool :=
  e.message == Err.noMoreFiles.message

/-- The kind parser parseNoteKind from llm_client.go: a switch on the raw
string against the four NoteKind constants, defaulting to learning. -/
def parseNoteKind (kind : String) : NoteKind :=
  if kind = NoteKind.cookbook.toGoString then NoteKind.cookbook
  else if kind = NoteKind.decision.toGoString then NoteKind.decision
  else if kind = NoteKind.learning.toGoString then NoteKind.learning
  else if kind = NoteKind.pattern.toGoString then NoteKind.pattern
  else NoteKind.learning

/-- The persisted per-file record fileState from the inbound FileWalker
adapter: hash, path, reason, status and modification time (UnixNano). -/
structure FileState where
  hash : FileHash
  path : FilePath
  reason : String
  status : FileStatus
  modTime : Int
deriving DecidableEq, Repr

/-- Lookup of a path in the catalogue.  The Go adapter keys its map by
absolute path; the model uses an association list with unique paths. -/
def lookupFile (cat : List FileState) (p : FilePath) : Option FileState :=
  cat.find? (fun st => st.path == p)

/-- Well-formedness of a catalogue: no two records share a path (the Go map
guarantees this by construction). -/
abbrev PathsNodup (cat : List FileState) : Prop :=
  (cat.map (fun st => st.path)).Nodup

/-- State of the FileWalker adapter: the in-memory catalogue plus the last
persisted snapshot of the state file (none while the file does not exist). -/
structure WalkerState where
  state : List FileState
  disk : Option (List FileState)
deriving DecidableEq, Repr

/-- The persistence step saveState: serialize the full catalogue to the
state file (write failures are not modelled; the claims under verification
only concern the error paths that never reach the write). -/
def saveStateW (w : WalkerState) : WalkerState :=
  { w with disk := some w.state }

/-- FileWalker.MarkError: unknown path fails with the not-found sentinel,
otherwise set status error with the reason and persist. -/
def markErrorW (w : WalkerState) (p : FilePath) (reason : String) :
    Option Err × WalkerState :=
  match lookupFile w.state p with
  | none => (some Err.fileNotFound, w)
  | some _ =>
    let cat := w.state.map fun st =>
      if st.path == p then { st with status := FileStatus.error, reason := reason } else st
    (none, saveStateW { w with state := cat })

/-- FileWalker.MarkProcessed: unknown path fails with the not-found sentinel,
otherwise set status processed, clear the reason, and persist. -/
def markProcessedW (w : WalkerState) (p : FilePath) : Option Err × WalkerState :=
  match lookupFile w.state p with
  | none => (some Err.fileNotFound, w)
  | some _ =>
    let cat := w.state.map fun st =>
      if st.path == p then { st with status := FileStatus.processed, reason := "" } else st
    (none, saveStateW { w with state := cat })

/-- FileWalker.MarkProcessing: unknown path fails with the not-found
sentinel, otherwise set status processing, clear the reason, and persist. -/
def markProcessingW (w : WalkerState) (p : FilePath) : Option Err × WalkerState :=
  match lookupFile w.state p with
  | none => (some Err.fileNotFound, w)
  | some _ =>
    let cat := w.state.map fun st =>
      if st.path == p then { st with status := FileStatus.processing, reason := "" } else st
    (none, saveStateW { w with state := cat })

/-- The per-record body of FileWalker.updateExistingFile: if the on-disk
modification time equals the stored one the record is untouched; otherwise
the hash is recomputed, the stored modification time is always updated, and
if the hash changed the record is reset to pending with hash overwritten
and reason cleared.  hashOf abstracts the keyed content hash of the file
currently on disk; records at other paths pass through unchanged. -/
def reconcileEntry (hashOf : FilePath → FileHash) (p : FilePath)
    (modTime : Int) (st : FileState) : FileState :=
  if st.path == p then
    if st.modTime == modTime then st
    else
      let h := hashOf p
      let st1 := { st with modTime := modTime }
      if st.hash ≠ h then
        { st1 with hash := h, status := FileStatus.pending, reason := "" }
      else st1
  else st

/-- FileWalker.updateExistingFile over the whole catalogue: the pointer
mutation of the Go source becomes a map applying the reconciliation to the
record at the discovered path. -/
def updateExistingFile (hashOf : FilePath → FileHash) (p : FilePath)
    (modTime : Int) (cat : List FileState) : List FileState :=
  cat.map (reconcileEntry hashOf p modTime)

/-- FileWalker.processDiscoveredFile: a known path is reconciled by
updateExistingFile; an unknown path is hashed and recorded as pending with
the on-disk modification time. -/
def processDiscoveredFile (hashOf : FilePath → FileHash) (modTime : Int)
    (cat : List FileState) (p : FilePath) : List FileState :=
  match lookupFile cat p with
  | some _ => updateExistingFile hashOf p modTime cat
  | none => cat ++ [⟨hashOf p, p, "", FileStatus.pending, modTime⟩]

/-- The pending-selection loop of FileWalker.NextPending (ports.go lines
158 to 165), made explicit in the order the Go runtime presents the map
entries during range iteration: return the first record in that order whose
status is pending, projected to the File domain record. -/
def nextPendingSelect (order : List FileState) : Option File :=
  (order.find? (fun st => st.status == FileStatus.pending)).map
    (fun st => ⟨st.hash, st.path, st.status⟩)

/-- The FileStore port of the domain (ports.go), as state-passing
operations: each Go method mutates its receiver and returns an error, so
the model takes and returns the store state alongside the error.
NextPending returns either an error, or no file, or the next pending
file, matching the Go pair of a nullable pointer and an error. -/
structure FileStoreOps (σ : Type) where
  markError : FilePath → String → σ → Option Err × σ
  nextPending : σ → Except Err (Option File) × σ
  markProcessed : FilePath → σ → Option Err × σ
  markProcessing : FilePath → σ → Option Err × σ
  readFile : FilePath → σ → Except Err String × σ

/-- Stage 1 of Service.Run, collectPendingFiles: repeatedly ask for the
next pending file, mark it processing, and accumulate it; stop on the
no-more-files sentinel (detected by message comparison, as the source
does) or a nil file; any other error, or a markProcessing failure, aborts.
The unbounded Go loop carries a fuel bound; exhaustion yields a
distinguished error that no claim treats as a successful run. -/
def collectPendingFiles {σ : Type} (fs : FileStoreOps σ) :
    Nat → σ → List File → (Except Err (List File)) × σ
  | 0, s, _ => (Except.error Err.fuelExhausted, s)
  | fuel + 1, s, acc =>
    match fs.nextPending s with
    | (Except.error e, s1) =>
      if isNoMoreFilesError e then (Except.ok acc, s1) else (Except.error e, s1)
    | (Except.ok none, s1) => (Except.ok acc, s1)
    | (Except.ok (some f), s1) =>
      match fs.markProcessing f.path s1 with
      | (some e, s2) => (Except.error e, s2)
      | (none, s2) => collectPendingFiles fs fuel s2 (acc ++ [f])

/-- Stage 2 of Service.Run, extractNotes: for each file read its contents
and extract notes; on either failure mark the file in error with the
failure message and continue with the next file; a markError failure
aborts with that error; notes of successful files accumulate in order. -/
def extractNotesStage {σ : Type} (fs : FileStoreOps σ)
    (ex : FilePath → String → Except Err (List MemoryNote)) :
    List File → σ → List MemoryNote → (Except Err (List MemoryNote)) × σ
  | [], s, acc => (Except.ok acc, s)
  | f :: rest, s, acc =>
    match fs.readFile f.path s with
    | (Except.error e, s1) =>
      match fs.markError f.path e.message s1 with
      | (some me, s2) => (Except.error me, s2)
      | (none, s2) => extractNotesStage fs ex rest s2 acc
    | (Except.ok contents, s1) =>
      match ex f.path contents with
      | Except.error e =>
        match fs.markError f.path e.message s1 with
        | (some me, s2) => (Except.error me, s2)
        | (none, s2) => extractNotesStage fs ex rest s2 acc
      | Except.ok notes => extractNotesStage fs ex rest s1 (acc ++ notes)

/-- Stage 3 of Service.Run, embedNotes: embed each note in order, aborting
on the first failure. -/
def embedNotesStage (embed : MemoryNote → Except Err EmbeddedNote) :
    List MemoryNote → Except Err (List EmbeddedNote)
  | [] => Except.ok []
  | n :: rest =>
    match embed n with
    | Except.error e => Except.error e
    | Except.ok en =>
      match embedNotesStage embed rest with
      | Except.error e => Except.error e
      | Except.ok ens => Except.ok (en :: ens)

/-- Stage 4 of Service.Run, saveNotes: save each embedded note in order,
aborting on the first failure; earlier saves keep their effect. -/
def saveNotesStage {ν : Type} (save : EmbeddedNote → ν → Option Err × ν) :
    List EmbeddedNote → ν → Option Err × ν
  | [], nv => (none, nv)
  | n :: rest, nv =>
    match save n nv with
    | (some e, nv1) => (some e, nv1)
    | (none, nv1) => saveNotesStage save rest nv1

/-- Stage 5 of Service.Run, updateFileStatus: mark every batch file
processed, aborting on the first failure. -/
def updateFileStatusStage {σ : Type} (fs : FileStoreOps σ) :
    List File → σ → Option Err × σ
  | [], s => (none, s)
  | f :: rest, s =>
    match fs.markProcessed f.path s with
    | (some e, s1) => (some e, s1)
    | (none, s1) => updateFileStatusStage fs rest s1

/-- Outcome of one orchestrator run: the final FileStore state, the final
NoteStore state, and the error Service.Run returned, if any. -/
structure RunResult (σ ν : Type) where
  fileState : σ
  noteState : ν
  err : Option Err
deriving DecidableEq, Repr

/-- Service.Run: collect pending files, short-circuit on an empty batch,
extract, short-circuit to status update on an empty note list, embed, save,
and finally mark processed, with the abort points of the source. -/
def runService {σ ν : Type} (fuel : Nat) (fs : FileStoreOps σ)
    (ex : FilePath → String → Except Err (List MemoryNote))
    (embed : MemoryNote → Except Err EmbeddedNote)
    (save : EmbeddedNote → ν → Option Err × ν)
    (s : σ) (nv : ν) : RunResult σ ν :=
  match collectPendingFiles fs fuel s [] with
  | (Except.error e, s1) => ⟨s1, nv, some e⟩
  | (Except.ok files, s1) =>
    if files = [] then ⟨s1, nv, none⟩
    else
      match extractNotesStage fs ex files s1 [] with
      | (Except.error e, s2) => ⟨s2, nv, some e⟩
      | (Except.ok notes, s2) =>
        if notes = [] then
          let r := updateFileStatusStage fs files s2
          ⟨r.2, nv, r.1⟩
        else
          match embedNotesStage embed notes with
          | Except.error e => ⟨s2, nv, some e⟩
          | Except.ok embedded =>
            match saveNotesStage save embedded nv with
            | (some e, nv1) => ⟨s2, nv1, some e⟩
            | (none, nv1) =>
              let r := updateFileStatusStage fs files s2
              ⟨r.2, nv1, r.1⟩

/-- One item of the parsed notes payload (extractedNote in llm_client.go):
the raw content, id and kind strings the model returned. -/
structure ExtractedNote where
  content : String
  id : String
  kind : String
deriving DecidableEq, Repr

/-- The mapping loop of LLMClient.ExtractNotes (llm_client.go lines 109 to
117): each parsed item becomes a MemoryNote with the supplied path, the
item content verbatim, the parsed kind, and the id string taken from the
response item. -/
def mapExtractedNotes (filePath : FilePath) (items : List ExtractedNote) :
    List MemoryNote :=
  items.map fun it => ⟨it.id, it.content, parseNoteKind it.kind, filePath⟩

/-- The terminal completion message printed by cmd/cli/main.go. -/
def completionMessage : String := "Extraction completed successfully"

/-- The console output of main in cmd/cli/main.go, as a function of the
error run returned (none on success): if run failed the error is printed,
and the completion message is then printed unconditionally, the error path
not returning early. -/
def mainOutput (runErr : Option String) : List String :=
  (match runErr with
   | some e => ["Error: " ++ e]
   | none => []) ++ [completionMessage]

/-- The process exit code of main in cmd/cli/main.go: main returns
normally on every path, never calling os.Exit with a non-zero code, so the
process exits 0 whether or not run failed. -/
def mainExitCode (_ : Option String) : Nat := 0

/-- The record persisted by the NoteStore adapter (storedNote in
note_store.go): the note fields flattened next to the embedding. -/
structure StoredNote where
  content : String
  id : NodeID
  kind : NoteKind
  path : FilePath
  embedding : EmbedVec
deriving DecidableEq, Repr

/-- Flattening of an embedded note into its persisted record, as
NoteStore.SaveNote builds it. -/
def toStored (e : EmbeddedNote) : StoredNote :=
  ⟨e.note.content, e.note.id, e.note.kind, e.note.path, e.embedding⟩

/-- Assignment into the note map keyed by id: replace the record under an
existing key, otherwise add the key, as the Go map assignment does. -/
def upsertNote (notes : List StoredNote) (n : StoredNote) : List StoredNote :=
  if notes.any (fun m => m.id == n.id) then
    notes.map (fun m => if m.id == n.id then n else m)
  else notes ++ [n]

/-- Well-formedness of a note collection: no two records share an id (the
Go map guarantees this by construction). -/
abbrev IdsNodup (notes : List StoredNote) : Prop :=
  (notes.map (fun m => m.id)).Nodup

/-- State of the NoteStore adapter: the in-memory collection plus the last
persisted snapshot of the notes file (none while the file does not
exist). -/
structure NoteStoreState where
  notes : List StoredNote
  disk : Option (List StoredNote)
deriving DecidableEq, Repr

/-- NoteStore.SaveNote: upsert by note id, then re-serialize the full
collection to disk (the write modelled as succeeding). -/
def saveNoteNS (st : NoteStoreState) (e : EmbeddedNote) : NoteStoreState :=
  let notes1 := upsertNote st.notes (toStored e)
  ⟨notes1, some notes1⟩

/-- NoteStore.loadNotes: a missing file yields the empty collection; an
existing file is deserialized and inserted record by record into the map
keyed by id, later records overwriting earlier ones. -/
def loadNotesNS (disk : Option (List StoredNote)) : List StoredNote :=
  match disk with
  | none => []
  | some l => l.foldl upsertNote []

/-- NewNoteStore over a given on-disk state: load the collection and
remember the path; the disk component carries over unchanged. -/
def newNoteStore (disk : Option (List StoredNote)) : NoteStoreState :=
  ⟨loadNotesNS disk, disk⟩

/-- Lookup of an id in the note collection. -/
def lookupNote (notes : List StoredNote) (id : NodeID) : Option StoredNote :=
  notes.find? (fun m => m.id == id)

/-- NoteStore.SaveNote in the shape the orchestrator consumes: the write
returns no error and the updated store state. -/
def saveNoteOp (e : EmbeddedNote) (st : NoteStoreState) :
    Option Err × NoteStoreState :=
  (none, saveNoteNS st e)

/-- FileWalker.ReadFile against an explicit disk content table: a missing
path yields the distinct file-not-found error, as the adapter maps
os.ErrNotExist; the walker state is untouched. -/
def readFileFrom (diskContents : List (FilePath × String)) (p : FilePath)
    (w : WalkerState) : Except Err String × WalkerState :=
  match diskContents.find? (fun c => c.1 == p) with
  | some c => (Except.ok c.2, w)
  | none => (Except.error Err.fileNotFound, w)

/-- FileWalker.NextPending in an execution where the source-tree scan
discovers no change (no new matching files, no modification-time change),
with the map range order fixed to catalogue list order: return the first
pending record as a File, or the no-more-files sentinel. -/
def nextPendingListOrder (w : WalkerState) :
    Except Err (Option File) × WalkerState :=
  match nextPendingSelect w.state with
  | some f => (Except.ok (some f), w)
  | none => (Except.error Err.noMoreFiles, w)

/-- The FileStore port instantiated with the FileWalker model: marks and
pending selection over the walker catalogue, reads against the given disk
content table. -/
def fwFileStoreOps (diskContents : List (FilePath × String)) :
    FileStoreOps WalkerState where
  markError := fun p r w => markErrorW w p r
  nextPending := nextPendingListOrder
  markProcessed := fun p w => markProcessedW w p
  markProcessing := fun p w => markProcessingW w p
  readFile := readFileFrom diskContents

/-- Lexicographic comparison of character lists by code point.  Go's
slices.Sort on the path strings compares UTF-8 byte sequences, and UTF-8
byte order coincides with code-point order, so this is the order the
MarkdownWriter sorts by. -/
def charListLe : List Char → List Char → Bool
  | [], _ => true
  | _ :: _, [] => false
  | a :: as, b :: bs =>
    if a < b then true
    else if b < a then false
    else charListLe as bs

/-- The path order used by the MarkdownWriter: lexicographic on the
underlying characters. -/
def pathLe (a b : FilePath) : Prop :=
  charListLe a.data b.data = true

instance : DecidableRel pathLe := fun a b =>
  inferInstanceAs (Decidable (charListLe a.data b.data = true))

/-- Two characters neither of which is below the other are equal. -/
def charEqOfNotLt : ∀ x y : Char, ¬ x < y → ¬ y < x → x = y :=
  fun x y h1 h2 =>
    Char.ext (UInt32.le_antisymm
      ((UInt32.not_lt).mp (by simpa [Char.lt_def] using h2))
      ((UInt32.not_lt).mp (by simpa [Char.lt_def] using h1)))

instance : IsTotal FilePath pathLe := by
  constructor
  have H : ∀ as bs : List Char,
      charListLe as bs = true ∨ charListLe bs as = true := by
    intro as
    induction as with
    | nil => intro bs; exact Or.inl rfl
    | cons a as ih =>
      intro bs
      cases bs with
      | nil => exact Or.inr rfl
      | cons b bs =>
        by_cases hab : a < b
        · exact Or.inl (by simp [charListLe, hab])
        · by_cases hba : b < a
          · exact Or.inr (by simp [charListLe, hba])
          · have e : a = b := charEqOfNotLt a b hab hba
            subst e
            rcases ih bs with h | h
            · exact Or.inl (by simpa [charListLe, hab] using h)
            · exact Or.inr (by simpa [charListLe, hab] using h)
  intro a b
  exact H a.data b.data

instance : IsTrans FilePath pathLe := by
  constructor
  have H : ∀ as bs cs : List Char, charListLe as bs = true →
      charListLe bs cs = true → charListLe as cs = true := by
    intro as
    induction as with
    | nil => intro bs cs h1 h2; rfl
    | cons a as ih =>
      intro bs cs h1 h2
      cases bs with
      | nil => simp [charListLe] at h1
      | cons b bs =>
        cases cs with
        | nil => simp [charListLe] at h2
        | cons c cs =>
          simp only [charListLe] at h1 h2 ⊢
          by_cases hab : a < b
          · by_cases hbc : b < c
            · simp [Char.lt_trans hab hbc]
            · by_cases hcb : c < b
              · rw [if_neg hbc, if_pos hcb] at h2
                exact absurd h2 (by decide)
              · have e : b = c := charEqOfNotLt b c hbc hcb
                subst e
                simp [hab]
          · by_cases hba : b < a
            · rw [if_neg hab, if_pos hba] at h1
              exact absurd h1 (by decide)
            · have e : a = b := charEqOfNotLt a b hab hba
              subst e
              rw [if_neg hab, if_neg hba] at h1
              by_cases hac : a < c
              · simp [hac]
              · by_cases hca : c < a
                · rw [if_neg hac, if_pos hca] at h2
                  exact absurd h2 (by decide)
                · rw [if_neg hac, if_neg hca] at h2 ⊢
                  exact ih bs cs h1 h2
  intro a b c h1 h2
  exact H a.data b.data c.data h1 h2

instance : IsAntisymm FilePath pathLe := by
  constructor
  have H : ∀ as bs : List Char, charListLe as bs = true →
      charListLe bs as = true → as = bs := by
    intro as
    induction as with
    | nil =>
      intro bs h1 h2
      cases bs with
      | nil => rfl
      | cons b bs => simp [charListLe] at h2
    | cons a as ih =>
      intro bs h1 h2
      cases bs with
      | nil => simp [charListLe] at h1
      | cons b bs =>
        simp only [charListLe] at h1 h2
        by_cases hab : a < b
        · rw [if_neg (Char.lt_asymm hab), if_pos hab] at h2
          exact absurd h2 (by decide)
        · by_cases hba : b < a
          · rw [if_neg hab, if_pos hba] at h1
            exact absurd h1 (by decide)
          · have e : a = b := charEqOfNotLt a b hab hba
            subst e
            rw [if_neg hab, if_neg hab] at h1 h2
            rw [ih bs h1 h2]
  intro a b h1 h2
  cases a with
  | mk da =>
    cases b with
    | mk db => exact congrArg String.mk (H da db h1 h2)

/-- Sorting of the grouped path keys, modelling slices.Sort in
writeCategoryFile. -/
def sortPaths (paths : List FilePath) : List FilePath :=
  List.insertionSort pathLe paths

/-- State of the MarkdownWriter: the in-memory multimap from note kind to
the notes collected so far, in insertion order. -/
def WriterState := NoteKind → List MemoryNote

/-- MarkdownWriter.WriteDoc: append the note to its kind's bucket. -/
def writeDoc (ws : WriterState) (n : MemoryNote) : WriterState :=
  fun k => if k = n.kind then ws k ++ [n] else ws k

/-- The category titles of Finalize, per kind. -/
def categoryTitle : NoteKind → String
  | .learning => "Learnings"
  | .pattern => "Patterns"
  | .cookbook => "Cookbooks"
  | .decision => "Decisions"

/-- The category descriptions used by the category files of Finalize. -/
def categoryDesc : NoteKind → String
  | .learning => "General knowledge, facts, and concepts extracted from the codebase."
  | .pattern => "Reusable patterns, best practices, and conventions found in the code."
  | .cookbook => "Step-by-step instructions and recipes for common tasks."
  | .decision => "Architectural decisions, trade-offs, and rationale."

/-- The shorter category descriptions used by writeIndex. -/
def categoryIndexDesc : NoteKind → String
  | .learning => "General knowledge, facts, and concepts"
  | .pattern => "Reusable patterns and best practices"
  | .cookbook => "Step-by-step instructions and recipes"
  | .decision => "Architectural decisions and rationale"

/-- The file name each category is written to. -/
def categoryFileName : NoteKind → String
  | .learning => "learnings.md"
  | .pattern => "patterns.md"
  | .cookbook => "cookbooks.md"
  | .decision => "decisions.md"

/-- The fixed category order of both writeIndex and Finalize. -/
def kindsOrder : List NoteKind :=
  [NoteKind.learning, NoteKind.pattern, NoteKind.cookbook, NoteKind.decision]

/-- MarkdownWriter.writeIndex: header, one bullet per category with its
count, and the total-notes summary. -/
def writeIndexContent (ws : WriterState) : String :=
  "# Knowledge Base\n\n"
    ++ "This documentation was automatically generated from source code analysis.\n\n"
    ++ "## Categories\n\n"
    ++ String.join (kindsOrder.map fun k =>
        "- [" ++ categoryTitle k ++ "](" ++ categoryFileName k ++ ") ("
          ++ toString (ws k).length ++ " notes) - " ++ categoryIndexDesc k ++ "\n")
    ++ "\n## Summary\n\n**Total Notes:** "
    ++ toString (kindsOrder.map (fun k => (ws k).length)).sum ++ "\n"

/-- The distinct path keys of a category, sorted: the keys of the
notesByPath grouping of writeCategoryFile after slices.Sort. -/
def categoryPaths (notes : List MemoryNote) : List FilePath :=
  sortPaths ((notes.map (fun n => n.path)).dedup)

/-- One path section of a category file: the path header followed by each
of the path's notes in collection order, separated by horizontal rules. -/
def pathSection (notes : List MemoryNote) (p : FilePath) : String :=
  "## " ++ p ++ "\n\n"
    ++ String.join ((notes.filter (fun n => n.path == p)).map
        (fun n => n.content ++ "\n\n" ++ "---\n\n"))

/-- MarkdownWriter.writeCategoryFile: title and description, then either
the empty-category placeholder or the path sections in sorted path
order. -/
def writeCategoryContent (ws : WriterState) (k : NoteKind) : String :=
  let notes := ws k
  let header := "# " ++ categoryTitle k ++ "\n\n" ++ categoryDesc k ++ "\n\n"
  if notes = [] then header ++ "*No notes in this category yet.*\n"
  else header ++ String.join ((categoryPaths notes).map (pathSection notes))

/-- The five files Finalize writes, as their byte contents. -/
structure DocsOutput where
  index : String
  learningsFile : String
  patternsFile : String
  cookbooksFile : String
  decisionsFile : String
deriving DecidableEq, Repr

/-- MarkdownWriter.Finalize: emit the index and the four category files
from the collected multimap; the multimap itself is not modified. -/
def finalizeW (ws : WriterState) : DocsOutput × WriterState :=
  (⟨writeIndexContent ws,
    writeCategoryContent ws NoteKind.learning,
    writeCategoryContent ws NoteKind.pattern,
    writeCategoryContent ws NoteKind.cookbook,
    writeCategoryContent ws NoteKind.decision⟩, ws)

/-- A learning note at /a.md used in the collection-order scenario. -/
def wNoteA : MemoryNote := ⟨"na", "A note", NoteKind.learning, "/a.md"⟩

/-- A learning note at /b.md used in the collection-order scenario. -/
def wNoteB : MemoryNote := ⟨"nb", "B note", NoteKind.learning, "/b.md"⟩

/-- A writer that collected the /b.md note before the /a.md note. -/
def wsCollectedBA : WriterState :=
  fun k => match k with
    | NoteKind.learning => [wNoteB, wNoteA]
    | _ => []

/-- A writer that collected the /a.md note before the /b.md note. -/
def wsCollectedAB : WriterState :=
  fun k => match k with
    | NoteKind.learning => [wNoteA, wNoteB]
    | _ => []

/-- Disk contents of the two-file scenario: /a.md has disappeared from the
tree while its catalogue record remains, /b.md is readable. -/
def cexDisk : List (FilePath × String) := [("/b.md", "B content")]

/-- The FileStore of the two-file scenario. -/
def cexFS : FileStoreOps WalkerState := fwFileStoreOps cexDisk

/-- Extractor oracle of the scenario: every readable file yields one
learning note. -/
def cexLLM : FilePath → String → Except Err (List MemoryNote) :=
  fun p _ => Except.ok [⟨"n1", "B note", NoteKind.learning, p⟩]

/-- Embedder oracle of the scenario: the embedding endpoint fails. -/
def cexEmbed : MemoryNote → Except Err EmbeddedNote :=
  fun _ => Except.error (Err.msg "embedding failed")

/-- Initial catalogue of the scenario: both files pending from an earlier
scan. -/
def cexW0 : WalkerState :=
  ⟨[⟨"ha", "/a.md", "", FileStatus.pending, 1⟩,
    ⟨"hb", "/b.md", "", FileStatus.pending, 2⟩], none⟩

/-- The batch entry for /a.md as NextPending returns it. -/
def cexFileA : File := ⟨"ha", "/a.md", FileStatus.pending⟩

/-- The batch entry for /b.md as NextPending returns it. -/
def cexFileB : File := ⟨"hb", "/b.md", FileStatus.pending⟩

/-- The note extracted from /b.md in the scenario. -/
def cexNote : MemoryNote := ⟨"n1", "B note", NoteKind.learning, "/b.md"⟩

/-- Walker state after the collect stage: both files marked processing and
persisted. -/
def cexS1 : WalkerState :=
  ⟨[⟨"ha", "/a.md", "", FileStatus.processing, 1⟩,
    ⟨"hb", "/b.md", "", FileStatus.processing, 2⟩],
   some [⟨"ha", "/a.md", "", FileStatus.processing, 1⟩,
    ⟨"hb", "/b.md", "", FileStatus.processing, 2⟩]⟩

/-- Walker state after the extract stage: /a.md marked in error with the
read failure message, /b.md still processing. -/
def cexS2 : WalkerState :=
  ⟨[⟨"ha", "/a.md", "inbound: file_walker file not found", FileStatus.error, 1⟩,
    ⟨"hb", "/b.md", "", FileStatus.processing, 2⟩],
   some [⟨"ha", "/a.md", "inbound: file_walker file not found", FileStatus.error, 1⟩,
    ⟨"hb", "/b.md", "", FileStatus.processing, 2⟩]⟩

end MemoryPipeline

namespace MemoryPipeline

/-- C8: the kind parser maps each of the four canonical strings to its
enumerator and every other string, the empty string included, to learning. -/
theorem parseNoteKind_canonical_and_default :
    parseNoteKind "learning" = NoteKind.learning ∧
    parseNoteKind "pattern" = NoteKind.pattern ∧
    parseNoteKind "cookbook" = NoteKind.cookbook ∧
    parseNoteKind "decision" = NoteKind.decision ∧
    ∀ s : String, s ≠ "learning" → s ≠ "pattern" → s ≠ "cookbook" →
      s ≠ "decision" → parseNoteKind s = NoteKind.learning := by
  refine ⟨by decide, by decide, by decide, by decide, ?_⟩
  intro s h1 h2 h3 h4
  simp only [parseNoteKind, NoteKind.toGoString]
  rw [if_neg h3, if_neg h4, if_neg h1, if_neg h2]

/-- Witness for C8: the default branch evaluated at the unknown kind
string wat, discharging the four inequality hypotheses. -/
theorem parseNoteKind_canonical_and_default_witness :
    parseNoteKind "wat" = NoteKind.learning :=
  parseNoteKind_canonical_and_default.2.2.2.2 "wat"
    (by decide) (by decide) (by decide) (by decide)

/-- A successful catalogue lookup returns a record bearing the looked-up
path. -/
lemma lookupFile_path {cat : List FileState} {p : FilePath} {st : FileState}
    (h : lookupFile cat p = some st) : st.path = p := by
  have := List.find?_some h
  simpa using this

/-- A successful catalogue lookup returns a member of the catalogue. -/
lemma lookupFile_mem {cat : List FileState} {p : FilePath} {st : FileState}
    (h : lookupFile cat p = some st) : st ∈ cat :=
  List.mem_of_find?_eq_some h

/-- In a catalogue without duplicate paths, any member bearing the looked-up
path is the record the lookup returned. -/
lemma lookupFile_unique {cat : List FileState} {p : FilePath} {st x : FileState}
    (hnd : PathsNodup cat) (h : lookupFile cat p = some st)
    (hx : x ∈ cat) (hxp : x.path = p) : x = st :=
  List.inj_on_of_nodup_map hnd hx (lookupFile_mem h)
    (by rw [hxp, lookupFile_path h])

/-- The reconciliation step preserves the path of every record. -/
lemma reconcileEntry_path (hashOf : FilePath → FileHash) (p : FilePath)
    (modTime : Int) (st : FileState) :
    (reconcileEntry hashOf p modTime st).path = st.path := by
  unfold reconcileEntry
  by_cases h1 : st.path == p
  · simp only [h1, if_true]
    by_cases h2 : st.modTime == modTime
    · simp [h2]
    · simp only [h2, Bool.false_eq_true, if_false]
      by_cases h3 : st.hash ≠ hashOf p <;> simp [h3]
  · simp [h1]

/-- The reconciliation step fixes records at other paths. -/
lemma reconcileEntry_other {p : FilePath} {st : FileState}
    (hashOf : FilePath → FileHash) (modTime : Int)
    (hp : (st.path == p) = false) :
    reconcileEntry hashOf p modTime st = st := by
  simp [reconcileEntry, hp]

/-- Looking up any path after reconciliation is the reconciliation of the
original lookup, because the step preserves paths. -/
lemma lookupFile_updateExistingFile (hashOf : FilePath → FileHash)
    (p : FilePath) (modTime : Int) (cat : List FileState) (q : FilePath) :
    lookupFile (updateExistingFile hashOf p modTime cat) q
      = (lookupFile cat q).map (reconcileEntry hashOf p modTime) := by
  unfold lookupFile updateExistingFile
  rw [List.find?_map]
  have hcomp : ((fun st : FileState => st.path == q)
      ∘ reconcileEntry hashOf p modTime) = (fun st : FileState => st.path == q) := by
    funext x
    simp [Function.comp, reconcileEntry_path hashOf p modTime x]
  rw [hcomp]

/-- C3: scan reconciliation.  An unknown path is recorded as pending with
its keyed hash and on-disk modification time; a known path with unchanged
modification time is left completely untouched and the result does not
depend on the hash function at all; a known path with changed modification
time always gets the new modification time stored, other records are
untouched, and status, reason and hash are rewritten exactly when the
recomputed hash differs from the stored one. -/
theorem processDiscoveredFile_spec (hashOf : FilePath → FileHash)
    (modTime : Int) (cat : List FileState) (p : FilePath)
    (hnd : PathsNodup cat) :
    (lookupFile cat p = none →
      processDiscoveredFile hashOf modTime cat p
        = cat ++ [⟨hashOf p, p, "", FileStatus.pending, modTime⟩]) ∧
    (∀ st, lookupFile cat p = some st → st.modTime = modTime →
      ∀ hashOf2 : FilePath → FileHash,
        processDiscoveredFile hashOf2 modTime cat p = cat) ∧
    (∀ st, lookupFile cat p = some st → st.modTime ≠ modTime →
      (∀ q, q ≠ p →
        lookupFile (processDiscoveredFile hashOf modTime cat p) q
          = lookupFile cat q) ∧
      (hashOf p ≠ st.hash →
        lookupFile (processDiscoveredFile hashOf modTime cat p) p
          = some ⟨hashOf p, st.path, "", FileStatus.pending, modTime⟩) ∧
      (hashOf p = st.hash →
        lookupFile (processDiscoveredFile hashOf modTime cat p) p
          = some ⟨st.hash, st.path, st.reason, st.status, modTime⟩)) := by
  have hproc : ∀ st, lookupFile cat p = some st →
      processDiscoveredFile hashOf modTime cat p
        = updateExistingFile hashOf p modTime cat := by
    intro st h
    simp [processDiscoveredFile, h]
  refine ⟨?_, ?_, ?_⟩
  · intro h
    simp [processDiscoveredFile, h]
  · intro st h hmt hashOf2
    have hp2 : processDiscoveredFile hashOf2 modTime cat p
        = updateExistingFile hashOf2 p modTime cat := by
      simp [processDiscoveredFile, h]
    rw [hp2]
    unfold updateExistingFile
    have hfix : ∀ x ∈ cat, reconcileEntry hashOf2 p modTime x = x := by
      intro x hx
      by_cases hp : (x.path == p) = true
      · have hxeq : x = st := lookupFile_unique hnd h hx (by simpa using hp)
        subst hxeq
        simp [reconcileEntry, hp, hmt]
      · exact reconcileEntry_other hashOf2 modTime (by simpa using hp)
    rw [List.map_congr_left hfix]
    simp
  · intro st h hmt
    rw [hproc st h]
    have hstp : (st.path == p) = true := by
      simp [lookupFile_path h]
    have hstm : (st.modTime == modTime) = false := by
      simp [hmt]
    refine ⟨?_, ?_, ?_⟩
    · intro q hq
      rw [lookupFile_updateExistingFile]
      cases hfind : lookupFile cat q with
      | none => rfl
      | some y =>
        have hyq : y.path = q := lookupFile_path hfind
        have hne : (y.path == p) = false := by
          simp [hyq, hq]
        simp [reconcileEntry_other hashOf modTime hne]
    · intro hne
      rw [lookupFile_updateExistingFile, h]
      have hh : ¬ st.hash = hashOf p := fun e => hne e.symm
      simp [reconcileEntry, hstp, hstm, hh]
    · intro heq
      rw [lookupFile_updateExistingFile, h]
      simp [reconcileEntry, hstp, hstm, heq]

/-- Witness for C3: a singleton catalogue holding /a.md with hash h0 and
modification time 1; rescanning with modification time 2 and a new content
hash resets the record to pending with the new hash and time. -/
theorem processDiscoveredFile_spec_witness :
    processDiscoveredFile (fun _ => "h1") 2
        [⟨"h0", "/a.md", "old", FileStatus.processed, 1⟩] "/a.md"
      = [⟨"h1", "/a.md", "", FileStatus.pending, 2⟩] ∧
    processDiscoveredFile (fun _ => "h1") 1
        [⟨"h0", "/a.md", "old", FileStatus.processed, 1⟩] "/a.md"
      = [⟨"h0", "/a.md", "old", FileStatus.processed, 1⟩] := by
  constructor
  · have h := (processDiscoveredFile_spec (fun _ => "h1") 2
      [⟨"h0", "/a.md", "old", FileStatus.processed, 1⟩] "/a.md"
      (by decide)).2.2 ⟨"h0", "/a.md", "old", FileStatus.processed, 1⟩
      (by decide) (by decide)
    have h2 := h.2.1 (by decide)
    revert h2
    decide
  · exact (processDiscoveredFile_spec (fun _ => "h1") 1
      [⟨"h0", "/a.md", "old", FileStatus.processed, 1⟩] "/a.md"
      (by decide)).2.1 ⟨"h0", "/a.md", "old", FileStatus.processed, 1⟩
      (by decide) (by decide) (fun _ => "h1")

/-- C10: each mark operation against a path unknown to the catalogue
returns the file-not-found error and leaves the walker state, both the
in-memory catalogue and the persisted state file, completely unchanged. -/
theorem mark_unknown_path_atomic (w : WalkerState) (p : FilePath)
    (reason : String) (h : lookupFile w.state p = none) :
    markErrorW w p reason = (some Err.fileNotFound, w) ∧
    markProcessedW w p = (some Err.fileNotFound, w) ∧
    markProcessingW w p = (some Err.fileNotFound, w) := by
  refine ⟨?_, ?_, ?_⟩ <;> simp [markErrorW, markProcessedW, markProcessingW, h]

/-- Witness for C10: marking /ghost.md in a walker holding only /a.md fails
with the file-not-found error and returns the walker unchanged. -/
theorem mark_unknown_path_atomic_witness :
    markErrorW ⟨[⟨"h0", "/a.md", "", FileStatus.pending, 1⟩], none⟩
        "/ghost.md" "boom"
      = (some Err.fileNotFound,
         ⟨[⟨"h0", "/a.md", "", FileStatus.pending, 1⟩], none⟩) :=
  (mark_unknown_path_atomic
    ⟨[⟨"h0", "/a.md", "", FileStatus.pending, 1⟩], none⟩
    "/ghost.md" "boom" (by decide)).1

/-- A first catalogue record used by the order-dependence theorem. -/
def fsRecA : FileState := ⟨"h1", "/a.md", "", FileStatus.pending, 1⟩

/-- A second catalogue record used by the order-dependence theorem. -/
def fsRecB : FileState := ⟨"h2", "/b.md", "", FileStatus.pending, 2⟩

/-- C1 (amended): when the collect stage produced a nonempty batch, the
extract stage succeeded with a nonempty note list, and some embedding call
fails, the run aborts with that error; the FileStore is returned exactly as
the extract stage left it, so no file is marked processed and each batch
file keeps the status it had at the end of extraction, and the NoteStore
state is returned untouched, save never having been called. -/
theorem run_embed_failure_batch_fatal {σ ν : Type} (fuel : Nat)
    (fs : FileStoreOps σ)
    (ex : FilePath → String → Except Err (List MemoryNote))
    (embed : MemoryNote → Except Err EmbeddedNote)
    (save : EmbeddedNote → ν → Option Err × ν) (s : σ) (nv : ν)
    (files : List File) (s1 : σ) (notes : List MemoryNote) (s2 : σ) (e : Err)
    (hc : collectPendingFiles fs fuel s [] = (Except.ok files, s1))
    (hne : files ≠ [])
    (hx : extractNotesStage fs ex files s1 [] = (Except.ok notes, s2))
    (hn : notes ≠ [])
    (he : embedNotesStage embed notes = Except.error e) :
    runService fuel fs ex embed save s nv = ⟨s2, nv, some e⟩ := by
  simp only [runService, hc]
  rw [if_neg hne]
  simp only [hx]
  rw [if_neg hn]
  simp only [he]

/-- Witness for C1: the two-file scenario run aborts with the embedding
error, the walker left exactly in its post-extract state and the freshly
constructed empty note store untouched. -/
theorem run_embed_failure_batch_fatal_witness :
    runService 4 cexFS cexLLM cexEmbed saveNoteOp cexW0 (newNoteStore none)
      = ⟨cexS2, newNoteStore none, some (Err.msg "embedding failed")⟩ :=
  run_embed_failure_batch_fatal 4 cexFS cexLLM cexEmbed saveNoteOp cexW0
    (newNoteStore none) [cexFileA, cexFileB] cexS1 [cexNote] cexS2
    (Err.msg "embedding failed")
    rfl (by decide) rfl (by decide) rfl

/-- C1 counterexample: in the two-file scenario the collect stage gives
/a.md status processing, the extract stage marks it in error for its
failed read while /b.md still yields a note, and the embedding failure
aborts the run; at the abort /a.md is in status error, not the processing
status the collect stage gave it, refuting the claim that every batch file
keeps that status. -/
theorem run_embed_failure_file_left_in_error :
    (collectPendingFiles cexFS 4 cexW0 []).1
      = Except.ok [cexFileA, cexFileB] ∧
    lookupFile (collectPendingFiles cexFS 4 cexW0 []).2.state "/a.md"
      = some ⟨"ha", "/a.md", "", FileStatus.processing, 1⟩ ∧
    (runService 4 cexFS cexLLM cexEmbed saveNoteOp cexW0
        (newNoteStore none)).err = some (Err.msg "embedding failed") ∧
    (lookupFile (runService 4 cexFS cexLLM cexEmbed saveNoteOp cexW0
        (newNoteStore none)).fileState.state "/a.md").map
        (fun st => st.status) = some FileStatus.error ∧
    FileStatus.error ≠ FileStatus.processing := by
  exact ⟨rfl, rfl, by decide, by decide, by decide⟩

/-- C2: per-file failure policy of the extract stage.  When reading a file
or extracting notes from it fails and marking the file in error with that
failure message succeeds, the stage continues with the remaining files and
the notes accumulated so far; when the markError call itself fails, the
stage aborts with that error; a successful file appends its notes and
continues. -/
theorem extract_per_file_failure_policy {σ : Type} (fs : FileStoreOps σ)
    (ex : FilePath → String → Except Err (List MemoryNote))
    (f : File) (rest : List File) (s : σ) (acc : List MemoryNote) :
    (∀ e s1 s2, fs.readFile f.path s = (Except.error e, s1) →
      fs.markError f.path e.message s1 = (none, s2) →
      extractNotesStage fs ex (f :: rest) s acc
        = extractNotesStage fs ex rest s2 acc) ∧
    (∀ e s1 me s2, fs.readFile f.path s = (Except.error e, s1) →
      fs.markError f.path e.message s1 = (some me, s2) →
      extractNotesStage fs ex (f :: rest) s acc = (Except.error me, s2)) ∧
    (∀ contents s1 e s2, fs.readFile f.path s = (Except.ok contents, s1) →
      ex f.path contents = Except.error e →
      fs.markError f.path e.message s1 = (none, s2) →
      extractNotesStage fs ex (f :: rest) s acc
        = extractNotesStage fs ex rest s2 acc) ∧
    (∀ contents s1 e me s2, fs.readFile f.path s = (Except.ok contents, s1) →
      ex f.path contents = Except.error e →
      fs.markError f.path e.message s1 = (some me, s2) →
      extractNotesStage fs ex (f :: rest) s acc = (Except.error me, s2)) ∧
    (∀ contents s1 notes, fs.readFile f.path s = (Except.ok contents, s1) →
      ex f.path contents = Except.ok notes →
      extractNotesStage fs ex (f :: rest) s acc
        = extractNotesStage fs ex rest s1 (acc ++ notes)) := by
  refine ⟨?_, ?_, ?_, ?_, ?_⟩
  · intro e s1 s2 hread hmark
    simp only [extractNotesStage, hread, hmark]
  · intro e s1 me s2 hread hmark
    simp only [extractNotesStage, hread, hmark]
  · intro contents s1 e s2 hread hex hmark
    simp only [extractNotesStage, hread, hex, hmark]
  · intro contents s1 e me s2 hread hex hmark
    simp only [extractNotesStage, hread, hex, hmark]
  · intro contents s1 notes hread hex
    simp only [extractNotesStage, hread, hex]

/-- Witness for C2: in the two-file scenario the failed read of /a.md is
recorded through markError and the stage continues with /b.md, whose note
is kept as the result. -/
theorem extract_per_file_failure_policy_witness :
    extractNotesStage cexFS cexLLM [cexFileA, cexFileB] cexS1 []
      = extractNotesStage cexFS cexLLM [cexFileB] cexS2 [] ∧
    extractNotesStage cexFS cexLLM [cexFileB] cexS2 []
      = (Except.ok [cexNote], cexS2) := by
  constructor
  · exact (extract_per_file_failure_policy cexFS cexLLM cexFileA [cexFileB]
      cexS1 []).1 Err.fileNotFound cexS1 cexS2 rfl rfl
  · rfl

/-- Looking up the id of an upserted record returns that record. -/
lemma lookupNote_upsert (notes : List StoredNote) (n : StoredNote) :
    lookupNote (upsertNote notes n) n.id = some n := by
  unfold upsertNote lookupNote
  by_cases h : notes.any (fun m => m.id == n.id)
  · rw [if_pos h, List.find?_map]
    have hcomp : ((fun m : StoredNote => m.id == n.id)
        ∘ (fun m => if m.id == n.id then n else m))
        = (fun m : StoredNote => m.id == n.id) := by
      funext x
      by_cases hx : (x.id == n.id) = true <;> simp [Function.comp, hx]
    rw [hcomp]
    have hsome : (notes.find? (fun m => m.id == n.id)).isSome := by
      rw [List.find?_isSome]
      simpa using List.any_eq_true.mp h
    rcases Option.isSome_iff_exists.mp hsome with ⟨m0, hm0⟩
    rw [hm0]
    have hp : (m0.id == n.id) = true := by
      have := List.find?_some hm0
      simpa using this
    have he : m0.id = n.id := eq_of_beq hp
    simp [he]
  · rw [if_neg h, List.find?_append]
    have hnone : notes.find? (fun m => m.id == n.id) = none := by
      rw [List.find?_eq_none]
      simpa using List.any_eq_false.mp (Bool.eq_false_iff.mpr h)
    rw [hnone, Option.none_or]
    simp [List.find?]

/-- Upserting preserves the unique-id invariant of the collection. -/
lemma upsert_ids_nodup (notes : List StoredNote) (n : StoredNote)
    (h : IdsNodup notes) : IdsNodup (upsertNote notes n) := by
  unfold upsertNote
  by_cases hany : notes.any (fun m => m.id == n.id)
  · rw [if_pos hany]
    show ((notes.map fun m => if m.id == n.id then n else m).map
      (fun m => m.id)).Nodup
    rw [List.map_map]
    have hsame : ∀ x ∈ notes,
        ((fun m : StoredNote => m.id) ∘ fun m => if m.id == n.id then n else m) x
          = x.id := by
      intro x hx
      by_cases hx2 : (x.id == n.id) = true
      · simp [Function.comp, hx2, (eq_of_beq hx2).symm]
      · simp [Function.comp, hx2]
    rw [List.map_congr_left hsame]
    exact h
  · rw [if_neg hany]
    show ((notes ++ [n]).map (fun m => m.id)).Nodup
    rw [List.map_append, List.nodup_append]
    refine ⟨h, List.nodup_singleton _, ?_⟩
    have hno : ∀ x ∈ notes, ¬ (x.id == n.id) = true := by
      simpa using List.any_eq_false.mp (Bool.eq_false_iff.mpr hany)
    intro x hx hmem
    rcases List.mem_map.mp hx with ⟨y, hy, hye⟩
    have : x = n.id := by simpa using hmem
    exact hno y hy (by rw [hye, this]; exact beq_self_eq_true _)

/-- Loading a collection whose ids are unique reproduces it: the record by
record insertion of loadNotes only ever appends. -/
lemma foldl_upsert_of_nodup :
    ∀ (l acc : List StoredNote), IdsNodup (acc ++ l) →
      l.foldl upsertNote acc = acc ++ l := by
  intro l
  induction l with
  | nil => intro acc _; simp
  | cons a l ih =>
    intro acc h
    rw [List.foldl_cons]
    have hkeys : ((acc ++ a :: l).map (fun m => m.id)).Nodup := h
    rw [List.map_append] at hkeys
    have hdisj := List.disjoint_of_nodup_append hkeys
    have hnotin : a.id ∉ acc.map (fun m => m.id) := by
      intro hmem
      exact hdisj hmem (by simp)
    have hany : acc.any (fun m => m.id == a.id) = false := by
      rw [List.any_eq_false]
      intro x hx hbe
      exact hnotin (List.mem_map.mpr ⟨x, hx, eq_of_beq hbe⟩)
    have hup : upsertNote acc a = acc ++ [a] := by
      unfold upsertNote
      rw [if_neg (by simp [hany])]
    rw [hup]
    have := ih (acc ++ [a]) (by simpa using h)
    simpa using this

/-- C7: NoteStore.SaveNote upserts by id and persists the full collection;
a fresh NoteStore constructed over the resulting on-disk state holds that
note under the same id, with the content, kind, path and embedding of the
last save performed for that id (last write wins); the unique-id invariant
is preserved, so the argument applies to every save in a sequence. -/
theorem saveNote_last_write_wins (st : NoteStoreState) (e : EmbeddedNote)
    (hnd : IdsNodup st.notes) :
    lookupNote (saveNoteNS st e).notes e.note.id = some (toStored e) ∧
    IdsNodup (saveNoteNS st e).notes ∧
    (newNoteStore (saveNoteNS st e).disk).notes = (saveNoteNS st e).notes ∧
    lookupNote (newNoteStore (saveNoteNS st e).disk).notes e.note.id
      = some (toStored e) := by
  have h1 : lookupNote (upsertNote st.notes (toStored e)) (toStored e).id
      = some (toStored e) := lookupNote_upsert _ _
  have h2 : IdsNodup (upsertNote st.notes (toStored e)) :=
    upsert_ids_nodup _ _ hnd
  have h3 : (newNoteStore (saveNoteNS st e).disk).notes
      = (saveNoteNS st e).notes := by
    show loadNotesNS (some (upsertNote st.notes (toStored e)))
      = upsertNote st.notes (toStored e)
    show (upsertNote st.notes (toStored e)).foldl upsertNote [] = _
    have := foldl_upsert_of_nodup (upsertNote st.notes (toStored e)) [] (by simpa using h2)
    simpa using this
  exact ⟨h1, h2, h3, by rw [h3]; exact h1⟩

/-- Witness for C7: a store already holding a record under id n; saving an
embedded note with the same id, new content, kind, path and embedding,
then reconstructing the store from its disk state, yields the new fields
under id n. -/
theorem saveNote_last_write_wins_witness :
    lookupNote (newNoteStore (saveNoteNS
        ⟨[⟨"old", "n", NoteKind.learning, "/a.md", [1]⟩],
         some [⟨"old", "n", NoteKind.learning, "/a.md", [1]⟩]⟩
        ⟨⟨"n", "new", NoteKind.pattern, "/b.md"⟩, [2, 3]⟩).disk).notes "n"
      = some ⟨"new", "n", NoteKind.pattern, "/b.md", [2, 3]⟩ :=
  (saveNote_last_write_wins
    ⟨[⟨"old", "n", NoteKind.learning, "/a.md", [1]⟩],
     some [⟨"old", "n", NoteKind.learning, "/a.md", [1]⟩]⟩
    ⟨⟨"n", "new", NoteKind.pattern, "/b.md"⟩, [2, 3]⟩ (by decide)).2.2.2

/-- C9: Finalize leaves the collected multimap untouched, so calling it a
second time over the same writer produces byte-identical contents for the
index and all four category files; within each category file the path
sections appear in sorted path order; and that sorted key sequence depends
only on the collected notes up to permutation, not on collection order. -/
theorem finalize_idempotent_sorted_paths (ws ws2 : WriterState) :
    (finalizeW ws).2 = ws ∧
    (finalizeW ((finalizeW ws).2)).1 = (finalizeW ws).1 ∧
    (∀ k, (categoryPaths (ws k)).Sorted pathLe) ∧
    (∀ k, List.Perm (ws k) (ws2 k) →
      categoryPaths (ws k) = categoryPaths (ws2 k)) := by
  refine ⟨rfl, rfl, ?_, ?_⟩
  · intro k
    exact List.sorted_insertionSort pathLe _
  · intro k hperm
    have h1 : List.Perm ((ws k).map (fun n => n.path)).dedup
        (((ws2 k).map (fun n => n.path)).dedup) :=
      (hperm.map (fun n => n.path)).dedup
    have s1 : (categoryPaths (ws k)).Sorted pathLe :=
      List.sorted_insertionSort pathLe _
    have s2 : (categoryPaths (ws2 k)).Sorted pathLe :=
      List.sorted_insertionSort pathLe _
    have hp : List.Perm (categoryPaths (ws k)) (categoryPaths (ws2 k)) :=
      ((List.perm_insertionSort pathLe _).trans h1).trans
        (List.perm_insertionSort pathLe _).symm
    exact List.eq_of_perm_of_sorted hp s1 s2

/-- Witness for C9: two writers holding the same two learning notes in
opposite collection orders produce the same sorted path key sequence. -/
theorem finalize_idempotent_sorted_paths_witness :
    categoryPaths (wsCollectedBA NoteKind.learning)
      = categoryPaths (wsCollectedAB NoteKind.learning) :=
  (finalize_idempotent_sorted_paths wsCollectedBA wsCollectedAB).2.2.2
    NoteKind.learning (by decide)

/-- C4: evaluation of the note mapping of LLMClient.ExtractNotes at a
failing input.  The id of every resulting note is the id string of the
response item, copied verbatim: two items that leave id empty, as the
system prompt instructs the model to do, yield two notes sharing the empty
id (no freshly generated, locally unique identifier is ever assigned), and
a model-supplied id changes the resulting note id. -/
theorem extractNotes_copies_model_ids :
    (mapExtractedNotes "/a.md"
        [⟨"first", "", "learning"⟩, ⟨"second", "", "pattern"⟩]).map
        (fun n => n.id) = ["", ""] ∧
    mapExtractedNotes "/a.md" [⟨"c", "model-id", "wat"⟩]
      = [⟨"model-id", "c", NoteKind.learning, "/a.md"⟩] :=
  ⟨rfl, rfl⟩

/-- C5: evaluation of the process boundary at a failing run.  main prints
the error, then still prints the completion message, and the process exits
with code 0; the completion message is also printed on success. -/
theorem main_error_path_still_reports_success :
    mainOutput (some "boom")
      = ["Error: boom", "Extraction completed successfully"] ∧
    mainExitCode (some "boom") = 0 ∧
    mainOutput none = ["Extraction completed successfully"] :=
  ⟨rfl, rfl, rfl⟩

/-- C6: the selection loop of NextPending ranges over a Go map, whose
iteration order is unspecified and varies between otherwise identical
range loops.  Over the same two-record catalogue, presented in the two
orders the runtime may choose, the loop returns different files: the
returned pending file is not determined by the catalogue and the disk
tree alone. -/
theorem nextPending_select_depends_on_map_order :
    (List.Perm [fsRecA, fsRecB] [fsRecB, fsRecA]) ∧
    nextPendingSelect [fsRecA, fsRecB] ≠ nextPendingSelect [fsRecB, fsRecA] := by
  constructor
  · decide
  · decide

end MemoryPipeline
